import Mathlib

/-!
Shallow embedding of the tcs-store trade subsystem
(`tcs_store/services/trade_service.py` and `tcs_store/storage/in_memory_store.py`).

Documents are JSON-like values; Python `dict`s are modelled as association
lists that preserve insertion order, with update-in-place on an existing key
(Python dict assignment keeps the key's position) and append on a new key.
Fallible service operations return `Except Err α × Store`: the returned store
is the store as left behind when the operation finished or raised.

The regex operator delegates to Python's `re` module, an external engine whose
dialect the spec leaves host-defined; the filter evaluator is therefore
parameterised by a `RegexEngine` whose `compile` returns `none` exactly on the
patterns that raise `re.error`.

Timestamps on operation-log entries come from the wall clock and are omitted
from the log-entry model; no claim mentions them.
-/

set_option autoImplicit false

namespace TcsStore

/-- JSON-like document values (maps, sequences, strings, integers, booleans,
null).  Python numbers are modelled as integers; no claim involves floats. -/
inductive JValue : Type where
  | null : JValue
  | bool : Bool → JValue
  | num : Int → JValue
  | str : String → JValue
  | arr : List JValue → JValue
  | obj : List (String × JValue) → JValue
deriving Repr

mutual

/-- Boolean structural equality on JSON values. -/
def JValue.beq : JValue → JValue → Bool
  | .null, .null => true
  | .bool x, .bool y => x == y
  | .num x, .num y => x == y
  | .str x, .str y => x == y
  | .arr xs, .arr ys => JValue.beqList xs ys
  | .obj xs, .obj ys => JValue.beqFields xs ys
  | _, _ => false

/-- Boolean equality on lists of JSON values. -/
def JValue.beqList : List JValue → List JValue → Bool
  | [], [] => true
  | x :: xs, y :: ys => JValue.beq x y && JValue.beqList xs ys
  | _, _ => false

/-- Boolean equality on key-value field lists. -/
def JValue.beqFields : List (String × JValue) → List (String × JValue) → Bool
  | [], [] => true
  | (k, v) :: xs, (k', v') :: ys =>
      k == k' && JValue.beq v v' && JValue.beqFields xs ys
  | _, _ => false

end

mutual

def JValue.beq_iff : ∀ a b : JValue, JValue.beq a b = true ↔ a = b
  | .null, b => by cases b <;> simp [JValue.beq]
  | .bool x, b => by cases b <;> simp [JValue.beq]
  | .num x, b => by cases b <;> simp [JValue.beq]
  | .str x, b => by cases b <;> simp [JValue.beq]
  | .arr xs, b => by
      cases b <;> simp [JValue.beq]
      exact JValue.beqList_iff xs _
  | .obj xs, b => by
      cases b <;> simp [JValue.beq]
      exact JValue.beqFields_iff xs _

def JValue.beqList_iff :
    ∀ xs ys : List JValue, JValue.beqList xs ys = true ↔ xs = ys
  | [], ys => by cases ys <;> simp [JValue.beqList]
  | x :: xs, ys => by
      cases ys with
      | nil => simp [JValue.beqList]
      | cons y ys =>
          simp only [JValue.beqList, Bool.and_eq_true, List.cons.injEq]
          exact and_congr (JValue.beq_iff x y) (JValue.beqList_iff xs ys)

def JValue.beqFields_iff :
    ∀ xs ys : List (String × JValue), JValue.beqFields xs ys = true ↔ xs = ys
  | [], ys => by cases ys <;> simp [JValue.beqFields]
  | (k, v) :: xs, ys => by
      cases ys with
      | nil => simp [JValue.beqFields]
      | cons y ys =>
          obtain ⟨k', v'⟩ := y
          simp only [JValue.beqFields, Bool.and_eq_true, List.cons.injEq,
            Prod.mk.injEq, beq_iff_eq]
          rw [JValue.beq_iff v v', JValue.beqFields_iff xs ys, and_assoc]

end

instance : DecidableEq JValue :=
  fun a b => decidable_of_iff _ (JValue.beq_iff a b)

instance {ε α : Type} [DecidableEq ε] [DecidableEq α] :
    DecidableEq (Except ε α) := fun a b =>
  match a, b with
  | .error e, .error e' =>
      if h : e = e' then isTrue (by rw [h]) else isFalse (by simp [h])
  | .ok x, .ok y =>
      if h : x = y then isTrue (by rw [h]) else isFalse (by simp [h])
  | .error _, .ok _ => isFalse (by simp)
  | .ok _, .error _ => isFalse (by simp)

/-- A top-level document, `Dict[str, Any]` in the source. -/
abbrev Doc := List (String × JValue)

/-- Python truthiness of a JSON value: `not trade_id` in `save_new` /
`save_update`.  Falsy: `None`, `False`, `0`, `""`, `[]`, `{}`. -/
def jFalsy : JValue → Bool
  | .null => true
  | .bool b => !b
  | .num n => n == 0
  | .str s => s.data.isEmpty
  | .arr xs => xs.isEmpty
  | .obj fs => fs.isEmpty

/-- Python `d.get(k)` on a Python dict: first (unique) binding of `k`. -/
def alGet {α β : Type} [DecidableEq α] (l : List (α × β)) (k : α) : Option β :=
  match l with
  | [] => none
  | (k', v) :: rest => if k' = k then some v else alGet rest k

/-- Python `d[k] = v` on a Python dict: replace in place when the key is present
(keeping its position), append otherwise. -/
def alSet {α β : Type} [DecidableEq α] (l : List (α × β)) (k : α) (v : β) :
    List (α × β) :=
  match l with
  | [] => [(k, v)]
  | (k', v') :: rest =>
      if k' = k then (k, v) :: rest else (k', v') :: alSet rest k v

/-- Python `del d[k]` on a Python dict: drop the (unique) binding of `k`. -/
def alDel {α β : Type} [DecidableEq α] (l : List (α × β)) (k : α) :
    List (α × β) :=
  match l with
  | [] => []
  | (k', v') :: rest =>
      if k' = k then rest else (k', v') :: alDel rest k

/-- The keys of an association list. -/
def alKeys {α β : Type} (l : List (α × β)) : List α := l.map Prod.fst

/-- Audit context (`tcs_store/models/context.py`): four required strings. -/
structure Context : Type where
  user : String
  agent : String
  action : String
  intent : String
deriving DecidableEq, Repr

/-- Operation-log entry (`OperationLog` in `in_memory_store.py`); the wall
clock timestamp is omitted. -/
structure LogEntry : Type where
  context : Context
  operation : String
  tradeId : JValue
deriving DecidableEq, Repr

/-- Source `InMemoryStore`: the id→document map (Python dict, insertion ordered) and
the append-only operation log. -/
structure Store : Type where
  docs : List (JValue × Doc)
  log : List LogEntry
deriving DecidableEq, Repr

/-- Source `InMemoryStore.save`: unconditional upsert plus a "save" log entry. -/
def Store.save (s : Store) (id : JValue) (d : Doc) (ctx : Context) : Store :=
  { docs := alSet s.docs id d, log := s.log ++ [⟨ctx, "save", id⟩] }

/-- Source `InMemoryStore.get`. -/
def Store.get (s : Store) (id : JValue) : Option Doc := alGet s.docs id

/-- Source `InMemoryStore.exists`. -/
def Store.existsId (s : Store) (id : JValue) : Bool := (alGet s.docs id).isSome

/-- Source `InMemoryStore.delete`: removes and logs "delete" only when present. -/
def Store.delete (s : Store) (id : JValue) (ctx : Context) : Bool × Store :=
  if s.existsId id then
    (true, { docs := alDel s.docs id, log := s.log ++ [⟨ctx, "delete", id⟩] })
  else (false, s)

/-- Source `InMemoryStore.get_all`: the documents in insertion order. -/
def Store.getAll (s : Store) : List Doc := s.docs.map Prod.snd

/-- Domain error outcomes raised by the service layer.  `typeError` stands for
a Python `TypeError` escaping an operator applied at incompatible types. -/
inductive Err : Type where
  | notFound : Err
  | alreadyExists : Err
  | invalidContext : Err
  | invalidFilter : Err
  | valueError : Err
  | typeError : Err
deriving DecidableEq, Repr

/-- Whitespace characters removed by Python `str.strip()` (the ASCII ones;
documents and contexts in this system carry ASCII metadata). -/
def isWsChar (c : Char) : Bool :=
  c = ' ' || c = '\t' || c = '\n' || c = '\r'

/-- Python `str.strip()`: drop leading and trailing whitespace. -/
def pyStrip (s : String) : String :=
  String.mk (((s.data.dropWhile isWsChar).reverse.dropWhile isWsChar).reverse)

/-- Source `TradeService._validate_context`: each of the four fields must be
non-empty after stripping whitespace (`not v or not v.strip()`). -/
def validateContext (ctx : Context) : Except Err Unit :=
  if pyStrip ctx.user = "" then .error .invalidContext
  else if pyStrip ctx.agent = "" then .error .invalidContext
  else if pyStrip ctx.action = "" then .error .invalidContext
  else if pyStrip ctx.intent = "" then .error .invalidContext
  else .ok ()

mutual

/-- Source `TradeService._deep_merge`: recursive merge of `updates` into
`existing`.  A null update value removes the key when the existing value is a
dict and stores an explicit null otherwise; dict values merge recursively;
every other value (lists included) replaces wholesale. -/
def deepMerge (existing : Doc) (updates : Doc) : Doc :=
  match updates with
  | [] => existing
  | (key, value) :: rest => deepMerge (deepMergeStep existing key value) rest

/-- One iteration of the `_deep_merge` loop: merge a single
`(key, value)` pair of `updates` into the accumulated result. -/
def deepMergeStep (existing : Doc) (key : String) (value : JValue) : Doc :=
  match value with
  | .null =>
      match alGet existing key with
      | some (.obj _) => alDel existing key
      | some _ => alSet existing key .null
      | none => alSet existing key .null
  | .obj uFields =>
      match alGet existing key with
      | some (.obj eFields) =>
          alSet existing key (.obj (deepMerge eFields uFields))
      | _ => alSet existing key (.obj uFields)
  | v => alSet existing key v

end

/-- Python `trade.get("id")` followed by the truthiness test: the id value of a
document, with `null` standing for a missing key. -/
def docId (trade : Doc) : JValue := (alGet trade "id").getD .null

/-- Source `TradeService.save_new`. -/
def saveNew (trade : Doc) (ctx : Context) (s : Store) : Except Err Doc × Store :=
  match validateContext ctx with
  | .error e => (.error e, s)
  | .ok _ =>
      let tradeId := docId trade
      if jFalsy tradeId then (.error .valueError, s)
      else if s.existsId tradeId then (.error .alreadyExists, s)
      else (.ok trade, s.save tradeId trade ctx)

/-- Source `TradeService.save_update` (full replacement). -/
def saveUpdate (trade : Doc) (ctx : Context) (s : Store) :
    Except Err Doc × Store :=
  match validateContext ctx with
  | .error e => (.error e, s)
  | .ok _ =>
      let tradeId := docId trade
      if jFalsy tradeId then (.error .valueError, s)
      else if !s.existsId tradeId then (.error .notFound, s)
      else (.ok trade, s.save tradeId trade ctx)

/-- Source `TradeService.save_partial`: read, deep-merge, write. -/
def savePartialDoc (tradeId : JValue) (updates : Doc) (ctx : Context)
    (s : Store) : Except Err Doc × Store :=
  match validateContext ctx with
  | .error e => (.error e, s)
  | .ok _ =>
      match s.get tradeId with
      | none => (.error .notFound, s)
      | some existing =>
          let merged := deepMerge existing updates
          (.ok merged, s.save tradeId merged ctx)

/-- Source `TradeService.delete_by_id` (idempotent). -/
def deleteById (tradeId : JValue) (ctx : Context) (s : Store) :
    Except Err Unit × Store :=
  match validateContext ctx with
  | .error e => (.error e, s)
  | .ok _ => (.ok (), (s.delete tradeId ctx).2)

/-- The loop body of `TradeService.delete_by_ids`: delete each id in turn,
counting deletions and collecting ids not present at their turn. -/
def deleteByIdsGo (ctx : Context) (ids : List JValue) (s : Store) :
    (Nat × List JValue) × Store :=
  match ids with
  | [] => ((0, []), s)
  | id :: rest =>
      if s.existsId id then
        let s' := (s.delete id ctx).2
        let r := deleteByIdsGo ctx rest s'
        ((r.1.1 + 1, r.1.2), r.2)
      else
        let r := deleteByIdsGo ctx rest s
        ((r.1.1, id :: r.1.2), r.2)

/-- Source `TradeService.delete_by_ids`. -/
def deleteByIds (ids : List JValue) (ctx : Context) (s : Store) :
    Except Err (Nat × List JValue) × Store :=
  match validateContext ctx with
  | .error e => (.error e, s)
  | .ok _ =>
      let r := deleteByIdsGo ctx ids s
      (.ok r.1, r.2)

/-- Helper for `splitDot`: accumulate the current segment (reversed). -/
def splitDotAux : List Char → List Char → List String
  | [], acc => [String.mk acc.reverse]
  | c :: rest, acc =>
      if c = '.' then String.mk acc.reverse :: splitDotAux rest []
      else splitDotAux rest (c :: acc)

/-- Python `path.split(".")` as used by `_get_nested_value`: split on every
dot, keeping empty segments (so `""` yields `[""]`). -/
def splitDot (s : String) : List String := splitDotAux s.data []

/-- Source `TradeService._get_nested_value`: walk the path segments through nested
dicts; a missing or non-dict intermediate yields null (Python `None`). -/
def getNested (v : JValue) (path : List String) : JValue :=
  match path with
  | [] => v
  | k :: rest =>
      match v with
      | .obj fields =>
          match alGet fields k with
          | some v' => getNested v' rest
          | none => .null
      | _ => .null

/-- The host regex engine behind Python's `re.search`: `compile` returns
`none` exactly on the patterns `re` rejects with `re.error`, and a matching
function (search anywhere in the string) otherwise.  The spec leaves the
dialect host-defined, so the evaluator is parameterised by the engine. -/
structure RegexEngine : Type where
  compile : String → Option (String → Bool)

/-- A concrete engine for witnesses: the single pattern `"["` is invalid (as
it is for Python `re`), and a valid pattern matches exactly itself. -/
def literalEngine : RegexEngine where
  compile p := if p = "[" then none else some (fun s => p == s)

/-- Python's ordering comparisons restricted to the types the documents
carry: numbers (booleans counting as 0/1) compare numerically, strings
lexicographically; any other pairing raises `TypeError` (`none`). -/
def jCompare : JValue → JValue → Option Ordering
  | .num x, .num y => some (compare x y)
  | .num x, .bool y => some (compare x (if y then 1 else 0))
  | .bool x, .num y => some (compare (if x then (1 : Int) else 0) y)
  | .bool x, .bool y =>
      some (compare (if x then (1 : Int) else 0) (if y then 1 else 0))
  | .str x, .str y => some (compare x y)
  | _, _ => none

/-- One iteration of the operator loop of `TradeService._apply_filter`:
apply a single `(operator, operand)` condition to the resolved field value.
The outcome `ok true` means the check passed (the loop continues), `ok
false` means the loop returns False, and `error` means the loop raises. -/
def applyOp (E : RegexEngine) (fieldValue : JValue) (op : String)
    (expected : JValue) : Except Err Bool :=
  if op = "eq" then
    .ok (decide (fieldValue = expected))
  else if op = "ne" then
    .ok (decide (fieldValue ≠ expected))
  else if op = "gt" then
    if fieldValue = .null then .ok false
    else
      match jCompare fieldValue expected with
      | some ord => .ok (decide (ord = .gt))
      | none => .error .typeError
  else if op = "gte" then
    if fieldValue = .null then .ok false
    else
      match jCompare fieldValue expected with
      | some ord => .ok (decide (ord ≠ .lt))
      | none => .error .typeError
  else if op = "lt" then
    if fieldValue = .null then .ok false
    else
      match jCompare fieldValue expected with
      | some ord => .ok (decide (ord = .lt))
      | none => .error .typeError
  else if op = "lte" then
    if fieldValue = .null then .ok false
    else
      match jCompare fieldValue expected with
      | some ord => .ok (decide (ord ≠ .gt))
      | none => .error .typeError
  else if op = "regex" then
    if fieldValue = .null then .ok false
    else
      match fieldValue with
      | .str sv =>
          match expected with
          | .str pat =>
              match E.compile pat with
              | none => .error .invalidFilter
              | some search => .ok (search sv)
          | _ => .error .typeError
      | _ => .ok false
  else if op = "in" then
    match expected with
    | .arr xs => .ok (decide (fieldValue ∈ xs))
    | _ => .error .invalidFilter
  else if op = "nin" then
    match expected with
    | .arr xs => .ok (decide (fieldValue ∉ xs))
    | _ => .error .invalidFilter
  else .error .invalidFilter

/-- The inner operator loop of `TradeService._apply_filter`, applied to the
resolved field value; the first failing operator returns `false`, the first
malformed one raises. -/
def applyOps (E : RegexEngine) (fieldValue : JValue) :
    List (String × JValue) → Except Err Bool
  | [] => .ok true
  | (op, expected) :: rest =>
      match applyOp E fieldValue op expected with
      | .error e => .error e
      | .ok false => .ok false
      | .ok true => applyOps E fieldValue rest

/-- Source `TradeService._apply_filter`: AND over the field conditions; an empty
filter matches every document; a non-dict condition set is invalid. -/
def applyFilter (E : RegexEngine) (trade : Doc) :
    List (String × JValue) → Except Err Bool
  | [] => .ok true
  | (path, conds) :: rest =>
      match conds with
      | .obj cs =>
          match applyOps E (getNested (.obj trade) (splitDot path)) cs with
          | .error e => .error e
          | .ok false => .ok false
          | .ok true => applyFilter E trade rest
      | _ => .error .invalidFilter

/-- The list comprehension in `load_by_filter` over a snapshot. -/
def filterTrades (E : RegexEngine) (f : List (String × JValue)) :
    List Doc → Except Err (List Doc)
  | [] => .ok []
  | t :: rest =>
      match applyFilter E t f with
      | .error e => .error e
      | .ok b =>
          match filterTrades E f rest with
          | .error e => .error e
          | .ok ts => .ok (if b then t :: ts else ts)

/-- The generator sum in `count_by_filter` over a snapshot. -/
def countTrades (E : RegexEngine) (f : List (String × JValue)) :
    List Doc → Except Err Nat
  | [] => .ok 0
  | t :: rest =>
      match applyFilter E t f with
      | .error e => .error e
      | .ok b =>
          match countTrades E f rest with
          | .error e => .error e
          | .ok n => .ok (if b then n + 1 else n)

/-- Source `TradeService.load_by_filter`. -/
def loadByFilter (E : RegexEngine) (f : List (String × JValue)) (s : Store) :
    Except Err (List Doc) :=
  filterTrades E f s.getAll

/-- Source `TradeService.count_by_filter`. -/
def countByFilter (E : RegexEngine) (f : List (String × JValue)) (s : Store) :
    Except Err Nat :=
  countTrades E f s.getAll

/-- Python `isinstance(v, dict)` on an optional existing value. -/
def isObjOpt : Option JValue → Bool
  | some (.obj _) => true
  | _ => false

/-- Number of occurrences of an id in a list of ids. -/
def countOcc (x : JValue) : List JValue → Nat
  | [] => 0
  | y :: rest => (if y = x then 1 else 0) + countOcc x rest

/-- A valid audit context used by concrete instances. -/
def ctx0 : Context := ⟨"trader", "platform", "save", "booking"⟩

/-- A context whose user field is whitespace only. -/
def blankCtx : Context := ⟨" ", "platform", "save", "booking"⟩

/-- A one-document store: the document stored under key "t1" carries the id
value "t1". -/
def s0 : Store := ⟨[(.str "t1", [("id", .str "t1"), ("a", .num 1)])], []⟩

/-- A two-document store holding ids "x" and "y". -/
def s1 : Store :=
  ⟨[(.str "x", [("id", .str "x")]), (.str "y", [("id", .str "y")])], []⟩

/- ------------------------------------------------------------------ -/
/- Association-list laws (Python dict get / set / del).               -/
/- ------------------------------------------------------------------ -/

theorem alGet_alSet_self {α β : Type} [DecidableEq α]
    (l : List (α × β)) (k : α) (v : β) : alGet (alSet l k v) k = some v := by
  induction l with
  | nil => simp [alSet, alGet]
  | cons a rest ih =>
      obtain ⟨k', v'⟩ := a
      by_cases h : k' = k
      · simp [alSet, alGet, h]
      · simp [alSet, alGet, h, ih]

theorem alGet_alSet_ne {α β : Type} [DecidableEq α]
    (l : List (α × β)) (k k' : α) (v : β) (h : k ≠ k') :
    alGet (alSet l k v) k' = alGet l k' := by
  induction l with
  | nil => simp [alSet, alGet, h]
  | cons a rest ih =>
      obtain ⟨k'', v''⟩ := a
      by_cases h2 : k'' = k
      · subst h2
        simp [alSet, alGet, h]
      · simp [alSet, alGet, h2, ih]

theorem alGet_alDel_ne {α β : Type} [DecidableEq α]
    (l : List (α × β)) (k k' : α) (h : k ≠ k') :
    alGet (alDel l k) k' = alGet l k' := by
  induction l with
  | nil => simp [alDel]
  | cons a rest ih =>
      obtain ⟨k'', v''⟩ := a
      by_cases h2 : k'' = k
      · subst h2
        simp [alDel, alGet, h]
      · simp [alDel, alGet, h2, ih]

theorem alGet_eq_none_iff {α β : Type} [DecidableEq α]
    (l : List (α × β)) (k : α) : alGet l k = none ↔ k ∉ alKeys l := by
  induction l with
  | nil => simp [alGet, alKeys]
  | cons a rest ih =>
      obtain ⟨k', v'⟩ := a
      by_cases h : k' = k
      · simp [alGet, alKeys, h]
      · simp [alGet, alKeys, h, ih, Ne.symm h]

theorem alGet_alDel_self {α β : Type} [DecidableEq α]
    (l : List (α × β)) (k : α) (h : (alKeys l).Nodup) :
    alGet (alDel l k) k = none := by
  induction l with
  | nil => simp [alDel, alGet]
  | cons a rest ih =>
      obtain ⟨k', v'⟩ := a
      simp only [alKeys, List.map_cons, List.nodup_cons] at h
      by_cases h2 : k' = k
      · subst h2
        simp only [alDel, if_pos rfl]
        exact (alGet_eq_none_iff rest k').mpr h.1
      · simp only [alDel, if_neg h2, alGet, if_neg h2]
        exact ih h.2

theorem alKeys_cons {α β : Type} (p : α × β) (l : List (α × β)) :
    alKeys (p :: l) = p.1 :: alKeys l := rfl

theorem mem_alKeys_alSet {α β : Type} [DecidableEq α]
    (l : List (α × β)) (k a : α) (v : β) :
    a ∈ alKeys (alSet l k v) ↔ a ∈ alKeys l ∨ a = k := by
  induction l with
  | nil => simp [alSet, alKeys]
  | cons p rest ih =>
      obtain ⟨k', v'⟩ := p
      by_cases h : k' = k
      · simp only [alSet, if_pos h, alKeys_cons, List.mem_cons]
        rw [h]
        tauto
      · simp only [alSet, if_neg h, alKeys_cons, List.mem_cons]
        rw [ih]
        tauto

theorem nodup_alKeys_alSet {α β : Type} [DecidableEq α]
    (l : List (α × β)) (k : α) (v : β) (h : (alKeys l).Nodup) :
    (alKeys (alSet l k v)).Nodup := by
  induction l with
  | nil => simp [alSet, alKeys]
  | cons p rest ih =>
      obtain ⟨k', v'⟩ := p
      rw [alKeys_cons, List.nodup_cons] at h
      by_cases h2 : k' = k
      · simp only [alSet, if_pos h2]
        rw [alKeys_cons, List.nodup_cons, ← h2]
        exact h
      · simp only [alSet, if_neg h2]
        rw [alKeys_cons, List.nodup_cons]
        constructor
        · intro hmem
          rcases (mem_alKeys_alSet rest k k' v).mp hmem with hm | he
          · exact h.1 hm
          · exact h2 he
        · exact ih h.2

theorem alKeys_alDel_sublist {α β : Type} [DecidableEq α]
    (l : List (α × β)) (k : α) :
    List.Sublist (alKeys (alDel l k)) (alKeys l) := by
  induction l with
  | nil => simp [alDel]
  | cons p rest ih =>
      obtain ⟨k', v'⟩ := p
      by_cases h : k' = k
      · simp only [alDel, if_pos h, alKeys_cons]
        exact List.sublist_cons_self _ _
      · simp only [alDel, if_neg h, alKeys_cons]
        exact List.Sublist.cons₂ _ ih

theorem nodup_alKeys_alDel {α β : Type} [DecidableEq α]
    (l : List (α × β)) (k : α) (h : (alKeys l).Nodup) :
    (alKeys (alDel l k)).Nodup :=
  h.sublist (alKeys_alDel_sublist l k)

theorem alGet_isSome_iff_mem {α β : Type} [DecidableEq α]
    (l : List (α × β)) (k : α) : (alGet l k).isSome = true ↔ k ∈ alKeys l := by
  rcases h : alGet l k with _ | v
  · simpa [h] using (alGet_eq_none_iff l k).mp h
  · have : k ∈ alKeys l := by
      by_contra hc
      rw [(alGet_eq_none_iff l k).mpr hc] at h
      cases h
    simp [h, this]

/- ------------------------------------------------------------------ -/
/- Deep-merge laws.                                                   -/
/- ------------------------------------------------------------------ -/

theorem deepMerge_nil (existing : Doc) : deepMerge existing [] = existing := by
  rw [deepMerge]

theorem deepMerge_cons (existing : Doc) (key : String) (value : JValue)
    (rest : Doc) :
    deepMerge existing ((key, value) :: rest) =
      deepMerge (deepMergeStep existing key value) rest := by
  rw [deepMerge]

theorem alGet_deepMergeStep_ne (existing : Doc) (key : String)
    (value : JValue) (k : String) (h : key ≠ k) :
    alGet (deepMergeStep existing key value) k = alGet existing k := by
  cases value with
  | null =>
      rcases hg : alGet existing key with _ | v
      · simp only [deepMergeStep, hg]
        exact alGet_alSet_ne _ _ _ _ h
      · cases v <;> simp only [deepMergeStep, hg] <;>
          first
            | exact alGet_alSet_ne _ _ _ _ h
            | exact alGet_alDel_ne _ _ _ h
  | obj uFields =>
      rcases hg : alGet existing key with _ | v
      · simp only [deepMergeStep, hg]
        exact alGet_alSet_ne _ _ _ _ h
      · cases v <;> simp only [deepMergeStep, hg] <;>
          exact alGet_alSet_ne _ _ _ _ h
  | bool b =>
      simp only [deepMergeStep]
      exact alGet_alSet_ne _ _ _ _ h
  | num n =>
      simp only [deepMergeStep]
      exact alGet_alSet_ne _ _ _ _ h
  | str sv =>
      simp only [deepMergeStep]
      exact alGet_alSet_ne _ _ _ _ h
  | arr xs =>
      simp only [deepMergeStep]
      exact alGet_alSet_ne _ _ _ _ h

theorem alGet_deepMergeStep_null (existing : Doc) (key : String)
    (h : (alKeys existing).Nodup) :
    alGet (deepMergeStep existing key .null) key =
      if isObjOpt (alGet existing key) then none else some .null := by
  rcases hg : alGet existing key with _ | v
  · simp only [deepMergeStep, hg, isObjOpt, if_neg Bool.false_ne_true]
    exact alGet_alSet_self _ _ _
  · cases v with
    | obj fs =>
        simp only [deepMergeStep, hg, isObjOpt, if_pos rfl]
        exact alGet_alDel_self _ _ h
    | null =>
        simp only [deepMergeStep, hg, isObjOpt, if_neg Bool.false_ne_true]
        exact alGet_alSet_self _ _ _
    | bool b =>
        simp only [deepMergeStep, hg, isObjOpt, if_neg Bool.false_ne_true]
        exact alGet_alSet_self _ _ _
    | num n =>
        simp only [deepMergeStep, hg, isObjOpt, if_neg Bool.false_ne_true]
        exact alGet_alSet_self _ _ _
    | str sv =>
        simp only [deepMergeStep, hg, isObjOpt, if_neg Bool.false_ne_true]
        exact alGet_alSet_self _ _ _
    | arr xs =>
        simp only [deepMergeStep, hg, isObjOpt, if_neg Bool.false_ne_true]
        exact alGet_alSet_self _ _ _

theorem nodup_alKeys_deepMergeStep (existing : Doc) (key : String)
    (value : JValue) (h : (alKeys existing).Nodup) :
    (alKeys (deepMergeStep existing key value)).Nodup := by
  cases value with
  | null =>
      rcases hg : alGet existing key with _ | v
      · simp only [deepMergeStep, hg]
        exact nodup_alKeys_alSet _ _ _ h
      · cases v <;> simp only [deepMergeStep, hg] <;>
          first
            | exact nodup_alKeys_alSet _ _ _ h
            | exact nodup_alKeys_alDel _ _ h
  | obj uFields =>
      rcases hg : alGet existing key with _ | v
      · simp only [deepMergeStep, hg]
        exact nodup_alKeys_alSet _ _ _ h
      · cases v <;> simp only [deepMergeStep, hg] <;>
          exact nodup_alKeys_alSet _ _ _ h
  | bool b =>
      simp only [deepMergeStep]
      exact nodup_alKeys_alSet _ _ _ h
  | num n =>
      simp only [deepMergeStep]
      exact nodup_alKeys_alSet _ _ _ h
  | str sv =>
      simp only [deepMergeStep]
      exact nodup_alKeys_alSet _ _ _ h
  | arr xs =>
      simp only [deepMergeStep]
      exact nodup_alKeys_alSet _ _ _ h

theorem alGet_deepMerge_frame (existing updates : Doc) (k : String)
    (h : alGet updates k = none) :
    alGet (deepMerge existing updates) k = alGet existing k := by
  induction updates generalizing existing with
  | nil => rw [deepMerge_nil]
  | cons p rest ih =>
      obtain ⟨key, value⟩ := p
      by_cases hkk : key = k
      · simp [alGet, hkk] at h
      · have h2 : alGet rest k = none := by simpa [alGet, hkk] using h
        rw [deepMerge_cons, ih (deepMergeStep existing key value) h2,
          alGet_deepMergeStep_ne _ _ _ _ hkk]

/-- Unfolding of `save_partial` on a valid context and a present id: the
result is the deep merge, stored back under the same id. -/
theorem savePartialDoc_ok (id : JValue) (updates : Doc) (ctx : Context)
    (s : Store) (existing : Doc) (hctx : validateContext ctx = .ok ())
    (hget : s.get id = some existing) :
    savePartialDoc id updates ctx s =
      (.ok (deepMerge existing updates),
        s.save id (deepMerge existing updates) ctx) := by
  simp [savePartialDoc, hctx, hget]

/- ------------------------------------------------------------------ -/
/- Claim theorems.                                                    -/
/- ------------------------------------------------------------------ -/

/-- C4: in deep merge, a key whose new value is null is removed from the
result when the existing value at that key is a map, and is mapped to null
(retained) when the existing value is not a map or the key is absent. -/
theorem deepMerge_null_semantics (existing updates : Doc) (k : String)
    (hnd1 : (alKeys existing).Nodup) (hnd2 : (alKeys updates).Nodup)
    (hk : alGet updates k = some .null) :
    alGet (deepMerge existing updates) k =
      if isObjOpt (alGet existing k) then none else some .null := by
  induction updates generalizing existing with
  | nil => simp [alGet] at hk
  | cons p rest ih =>
      obtain ⟨key, value⟩ := p
      rw [alKeys_cons, List.nodup_cons] at hnd2
      by_cases hkk : key = k
      · have hv : value = .null := by simpa [alGet, hkk] using hk
        subst hv
        have hrest : alGet rest k = none := by
          refine (alGet_eq_none_iff rest k).mpr ?_
          rw [← hkk]
          exact hnd2.1
        rw [deepMerge_cons, alGet_deepMerge_frame _ _ _ hrest, ← hkk]
        exact alGet_deepMergeStep_null existing key hnd1
      · have h2 : alGet rest k = some .null := by simpa [alGet, hkk] using hk
        rw [deepMerge_cons,
          ih (deepMergeStep existing key value)
            (nodup_alKeys_deepMergeStep existing key value hnd1) hnd2.2 h2,
          alGet_deepMergeStep_ne existing key value k hkk]

/-- C4 witness: nulling the object-valued field "b" of a stored document
removes the key from the merged result. -/
theorem deepMerge_null_semantics_witness :
    (alKeys ([("id", JValue.str "t1"), ("b", JValue.obj [("c", JValue.num 2)])]
      : Doc)).Nodup
    ∧ (alKeys ([("b", JValue.null)] : Doc)).Nodup
    ∧ alGet ([("b", JValue.null)] : Doc) "b" = some .null
    ∧ alGet (deepMerge
        [("id", JValue.str "t1"), ("b", JValue.obj [("c", JValue.num 2)])]
        [("b", JValue.null)]) "b" =
      if isObjOpt (alGet
          ([("id", JValue.str "t1"), ("b", JValue.obj [("c", JValue.num 2)])]
            : Doc) "b")
      then none else some .null :=
  ⟨by decide, by decide, by decide,
    deepMerge_null_semantics _ _ _ (by decide) (by decide) (by decide)⟩

/-- C5: every key present in the existing document but absent from the
update keeps its value under deep merge; consequently `save_partial` stores
and returns exactly `deep_merge existing updates`, in which such fields are
unchanged. -/
theorem deepMerge_preserves_unnamed_fields (existing updates : Doc)
    (k : String) (hk : alGet updates k = none) (id : JValue) (ctx : Context)
    (s : Store) (hctx : validateContext ctx = .ok ())
    (hget : s.get id = some existing) :
    alGet (deepMerge existing updates) k = alGet existing k
    ∧ savePartialDoc id updates ctx s =
        (.ok (deepMerge existing updates),
          s.save id (deepMerge existing updates) ctx) :=
  ⟨alGet_deepMerge_frame existing updates k hk,
    savePartialDoc_ok id updates ctx s existing hctx hget⟩

/-- C5 witness: the field "a" is not named by the update and survives the
merge done by `save_partial` unchanged. -/
theorem deepMerge_preserves_unnamed_fields_witness :
    alGet ([("b", JValue.num 2)] : Doc) "a" = none
    ∧ validateContext ctx0 = .ok ()
    ∧ s0.get (.str "t1") = some [("id", .str "t1"), ("a", .num 1)]
    ∧ (alGet (deepMerge [("id", .str "t1"), ("a", .num 1)]
          [("b", JValue.num 2)]) "a" =
        alGet ([("id", .str "t1"), ("a", .num 1)] : Doc) "a"
      ∧ savePartialDoc (.str "t1") [("b", JValue.num 2)] ctx0 s0 =
          (.ok (deepMerge [("id", .str "t1"), ("a", .num 1)]
            [("b", JValue.num 2)]),
           s0.save (.str "t1")
             (deepMerge [("id", .str "t1"), ("a", .num 1)]
               [("b", JValue.num 2)]) ctx0)) :=
  ⟨by decide, by decide, by decide,
    deepMerge_preserves_unnamed_fields _ _ _ (by decide) _ _ _ (by decide)
      (by decide)⟩

/-- C1 counterexample: the claim fails as stated.  The store `s0` holds a
document with id field "t1" under key "t1"; a partial update whose body
contains an "id" key overwrites the id field of the stored and returned
document (the deep merge treats "id" like any other scalar field). -/
theorem savePartial_id_overwritten_cex :
    s0.get (.str "t1") = some [("id", .str "t1"), ("a", .num 1)]
    ∧ (savePartialDoc (.str "t1") [("id", .str "t2")] ctx0 s0).1 =
        .ok [("id", .str "t2"), ("a", .num 1)]
    ∧ (savePartialDoc (.str "t1") [("id", .str "t2")] ctx0 s0).2.get
        (.str "t1") = some [("id", .str "t2"), ("a", .num 1)]
    ∧ docId [("id", .str "t2"), ("a", .num 1)] ≠
        docId [("id", .str "t1"), ("a", .num 1)] :=
  ⟨by decide, by decide, by decide, by decide⟩

/-- C1 amended: the id field of a stored document is immutable under
`save_partial` whenever the update body does not itself contain an "id"
key; an update containing "id" replaces the field like any other field. -/
theorem savePartial_id_immutable_when_not_updated (id : JValue)
    (updates : Doc) (ctx : Context) (s : Store) (existing : Doc)
    (hctx : validateContext ctx = .ok ()) (hget : s.get id = some existing)
    (hupd : alGet updates "id" = none) :
    savePartialDoc id updates ctx s =
      (.ok (deepMerge existing updates),
        s.save id (deepMerge existing updates) ctx)
    ∧ docId (deepMerge existing updates) = docId existing
    ∧ (s.save id (deepMerge existing updates) ctx).get id =
        some (deepMerge existing updates) := by
  refine ⟨savePartialDoc_ok id updates ctx s existing hctx hget, ?_, ?_⟩
  · unfold docId
    rw [alGet_deepMerge_frame existing updates "id" hupd]
  · unfold Store.get Store.save
    exact alGet_alSet_self _ _ _

/-- C1 amended witness: an update not naming "id" leaves the stored id
value unchanged. -/
theorem savePartial_id_immutable_witness :
    validateContext ctx0 = .ok ()
    ∧ s0.get (.str "t1") = some [("id", .str "t1"), ("a", .num 1)]
    ∧ alGet ([("b", JValue.num 7)] : Doc) "id" = none
    ∧ (savePartialDoc (.str "t1") [("b", JValue.num 7)] ctx0 s0 =
        (.ok (deepMerge [("id", .str "t1"), ("a", .num 1)]
          [("b", JValue.num 7)]),
         s0.save (.str "t1")
           (deepMerge [("id", .str "t1"), ("a", .num 1)]
             [("b", JValue.num 7)]) ctx0)
      ∧ docId (deepMerge [("id", .str "t1"), ("a", .num 1)]
          [("b", JValue.num 7)]) =
        docId [("id", .str "t1"), ("a", .num 1)]
      ∧ (s0.save (.str "t1")
          (deepMerge [("id", .str "t1"), ("a", .num 1)]
            [("b", JValue.num 7)]) ctx0).get (.str "t1") =
        some (deepMerge [("id", .str "t1"), ("a", .num 1)]
          [("b", JValue.num 7)])) :=
  ⟨by decide, by decide, by decide,
    savePartial_id_immutable_when_not_updated _ _ _ _ _ (by decide)
      (by decide) (by decide)⟩

/-- Count/list parity on any snapshot list. -/
theorem countTrades_eq_length (E : RegexEngine) (f : List (String × JValue))
    (l : List Doc) :
    countTrades E f l = (filterTrades E f l).map List.length := by
  induction l with
  | nil => simp [countTrades, filterTrades, Except.map]
  | cons t rest ih =>
      cases hA : applyFilter E t f with
      | error e => simp [countTrades, filterTrades, hA, Except.map]
      | ok b =>
          cases hR : filterTrades E f rest with
          | error e =>
              rw [hR] at ih
              simp [countTrades, filterTrades, hA, hR, ih, Except.map]
          | ok ts =>
              rw [hR] at ih
              cases b <;>
                simp [countTrades, filterTrades, hA, hR, ih, Except.map]

/-- C3: for every regex engine, filter expression and store state,
`count_by_filter` equals the length of the list `load_by_filter` returns
(and both fail identically on invalid filters). -/
theorem countByFilter_eq_length_loadByFilter (E : RegexEngine)
    (f : List (String × JValue)) (s : Store) :
    countByFilter E f s = (loadByFilter E f s).map List.length :=
  countTrades_eq_length E f s.getAll

/-- A document surviving the whole `delete_by_ids` loop was present before
the loop: the loop only removes documents. -/
theorem deleteByIdsGo_exists_mono (ctx : Context) (ids : List JValue) :
    ∀ (s : Store) (X : JValue),
      ((deleteByIdsGo ctx ids s).2).existsId X = true →
      s.existsId X = true := by
  induction ids with
  | nil =>
      intro s X h
      simpa [deleteByIdsGo] using h
  | cons id rest ih =>
      intro s X h
      by_cases hid : s.existsId id
      · simp only [deleteByIdsGo, if_pos hid] at h
        have h2 := ih _ _ h
        unfold Store.delete at h2
        rw [if_pos hid] at h2
        unfold Store.existsId at h2 ⊢
        rw [alGet_isSome_iff_mem] at h2 ⊢
        exact (alKeys_alDel_sublist s.docs id).subset h2
      · simp only [deleteByIdsGo, if_neg hid] at h
        exact ih _ _ h

/-- Present-or-absent bookkeeping of `existsId` across one delete. -/
theorem existsId_delete_eq (s : Store) (id : JValue) (ctx : Context)
    (X : JValue) (hnd : (alKeys s.docs).Nodup) (hid : s.existsId id = true) :
    ((s.delete id ctx).2).existsId X =
      if X = id then false else s.existsId X := by
  unfold Store.delete
  rw [if_pos hid]
  unfold Store.existsId
  by_cases hX : X = id
  · subst hX
    simp [alGet_alDel_self _ _ hnd]
  · have hne : id ≠ X := fun h => hX h.symm
    rw [alGet_alDel_ne _ _ _ hne]
    simp [hX]

/-- Key distinctness survives one delete inside the loop. -/
theorem nodup_docs_delete (s : Store) (id : JValue) (ctx : Context)
    (hnd : (alKeys s.docs).Nodup) :
    (alKeys ((s.delete id ctx).2).docs).Nodup := by
  unfold Store.delete
  by_cases hid : s.existsId id
  · rw [if_pos hid]
    exact nodup_alKeys_alDel _ _ hnd
  · rw [if_neg hid]
    exact hnd

/-- Missing-id counting of the `delete_by_ids` loop: an id that was present
loses exactly its first occurrence to deletion, later occurrences are
reported missing; an absent id is reported missing at every occurrence. -/
theorem deleteByIdsGo_missing_count (ctx : Context) (ids : List JValue) :
    ∀ (s : Store) (X : JValue), (alKeys s.docs).Nodup →
      countOcc X (deleteByIdsGo ctx ids s).1.2 =
        countOcc X ids - (if s.existsId X then 1 else 0) := by
  induction ids with
  | nil =>
      intro s X hnd
      simp [deleteByIdsGo, countOcc]
  | cons id rest ih =>
      intro s X hnd
      by_cases hid : s.existsId id
      · simp only [deleteByIdsGo, if_pos hid]
        rw [ih _ X (nodup_docs_delete s id ctx hnd),
          existsId_delete_eq s id ctx X hnd hid]
        by_cases hX : X = id
        · subst hX
          simp [countOcc, hid]
        · have hne : ¬ id = X := fun h => hX h.symm
          simp only [countOcc, if_neg hne, if_neg hX, Nat.zero_add]
      · simp only [deleteByIdsGo, if_neg hid]
        by_cases hX : X = id
        · subst hX
          simp only [countOcc, if_pos rfl, ih _ X hnd]
          rw [Bool.not_eq_true] at hid
          simp [hid]
        · have hne : ¬ id = X := fun h => hX h.symm
          simp only [countOcc, if_neg hne, ih _ X hnd, Nat.zero_add]

/-- Every processed id either increments the deleted count or lands in the
missing list. -/
theorem deleteByIdsGo_length (ctx : Context) (ids : List JValue) :
    ∀ s : Store,
      (deleteByIdsGo ctx ids s).1.1 + (deleteByIdsGo ctx ids s).1.2.length =
        ids.length := by
  induction ids with
  | nil =>
      intro s
      simp [deleteByIdsGo]
  | cons id rest ih =>
      intro s
      by_cases hid : s.existsId id
      · simp only [deleteByIdsGo, if_pos hid, List.length_cons]
        have := ih ((s.delete id ctx).2)
        omega
      · simp only [deleteByIdsGo, if_neg hid, List.length_cons]
        have := ih s
        omega

/-- After the loop, no id that was listed survives in the store. -/
theorem deleteByIdsGo_removes (ctx : Context) (ids : List JValue) :
    ∀ (s : Store) (X : JValue), (alKeys s.docs).Nodup → X ∈ ids →
      ((deleteByIdsGo ctx ids s).2).existsId X = false := by
  induction ids with
  | nil =>
      intro s X _ h
      simp at h
  | cons id rest ih =>
      intro s X hnd hmem
      by_cases hid : s.existsId id
      · simp only [deleteByIdsGo, if_pos hid]
        rcases List.mem_cons.mp hmem with hX | hX
        · subst hX
          refine Bool.eq_false_iff.mpr ?_
          intro htrue
          have h2 := deleteByIdsGo_exists_mono ctx rest _ X htrue
          rw [existsId_delete_eq s X ctx X hnd hid, if_pos rfl] at h2
          cases h2
        · exact ih _ X (nodup_docs_delete s id ctx hnd) hX
      · simp only [deleteByIdsGo, if_neg hid]
        rcases List.mem_cons.mp hmem with hX | hX
        · subst hX
          refine Bool.eq_false_iff.mpr ?_
          intro htrue
          exact hid (deleteByIdsGo_exists_mono ctx rest s X htrue)
        · exact ih s X hnd hX

/-- C6: with a valid context, `delete_by_ids` returns the loop's
`(deleted_count, missing_ids)` and final store, in which: an id X present in
the store loses exactly one occurrence (its first, which is deleted) from
the missing report, every later occurrence of X being reported missing; the
counts partition the input; and every listed id is gone afterwards. -/
theorem deleteByIds_duplicates (ids : List JValue) (ctx : Context)
    (s : Store) (X : JValue) (hctx : validateContext ctx = .ok ())
    (hnd : (alKeys s.docs).Nodup) :
    deleteByIds ids ctx s =
      (.ok (deleteByIdsGo ctx ids s).1, (deleteByIdsGo ctx ids s).2)
    ∧ countOcc X (deleteByIdsGo ctx ids s).1.2 =
        countOcc X ids - (if s.existsId X then 1 else 0)
    ∧ (deleteByIdsGo ctx ids s).1.1 +
        (deleteByIdsGo ctx ids s).1.2.length = ids.length
    ∧ (X ∈ ids → ((deleteByIdsGo ctx ids s).2).existsId X = false) := by
  refine ⟨?_, deleteByIdsGo_missing_count ctx ids s X hnd,
    deleteByIdsGo_length ctx ids s,
    fun hm => deleteByIdsGo_removes ctx ids s X hnd hm⟩
  simp [deleteByIds, hctx]

/-- C6 witness: deleting `["x", "x", "z"]` from a store holding "x" and "y"
deletes "x" once and reports the second "x" and the absent "z" missing. -/
theorem deleteByIds_duplicates_witness :
    validateContext ctx0 = .ok ()
    ∧ (alKeys s1.docs).Nodup
    ∧ (deleteByIds [.str "x", .str "x", .str "z"] ctx0 s1 =
        (.ok (deleteByIdsGo ctx0 [.str "x", .str "x", .str "z"] s1).1,
          (deleteByIdsGo ctx0 [.str "x", .str "x", .str "z"] s1).2)
      ∧ countOcc (.str "x")
          (deleteByIdsGo ctx0 [.str "x", .str "x", .str "z"] s1).1.2 =
        countOcc (.str "x") [.str "x", .str "x", .str "z"] -
          (if s1.existsId (.str "x") then 1 else 0)
      ∧ (deleteByIdsGo ctx0 [.str "x", .str "x", .str "z"] s1).1.1 +
          (deleteByIdsGo ctx0
            [.str "x", .str "x", .str "z"] s1).1.2.length =
        ([JValue.str "x", .str "x", .str "z"] : List JValue).length
      ∧ ((JValue.str "x") ∈ ([.str "x", .str "x", .str "z"] : List JValue) →
          ((deleteByIdsGo ctx0
            [.str "x", .str "x", .str "z"] s1).2).existsId (.str "x") =
            false)) :=
  ⟨by decide, by decide,
    deleteByIds_duplicates _ _ _ _ (by decide) (by decide)⟩

/-- C7: with a valid context and a truthy id value X, `save_new` of a
document whose id field is X raises AlreadyExists and returns the store
untouched when X is already stored, and otherwise stores the document as-is
(retrievable under X) and returns it unchanged. -/
theorem saveNew_duplicate_prevention (trade : Doc) (ctx : Context)
    (s : Store) (X : JValue) (hctx : validateContext ctx = .ok ())
    (hid : docId trade = X) (ht : jFalsy X = false) :
    (s.existsId X = true → saveNew trade ctx s = (.error .alreadyExists, s))
    ∧ (s.existsId X = false →
        saveNew trade ctx s = (.ok trade, s.save X trade ctx)
        ∧ (s.save X trade ctx).get X = some trade) := by
  subst hid
  constructor
  · intro hex
    simp [saveNew, hctx, ht, hex]
  · intro hex
    refine ⟨by simp [saveNew, hctx, ht, hex], ?_⟩
    unfold Store.get Store.save
    exact alGet_alSet_self _ _ _

/-- C7 witness: saving id "t1" into `s0` (which holds it) collides; saving
id "t9" (absent) stores as-is. -/
theorem saveNew_duplicate_prevention_witness :
    validateContext ctx0 = .ok ()
    ∧ docId [("id", JValue.str "t1")] = .str "t1"
    ∧ jFalsy (.str "t1") = false
    ∧ ((s0.existsId (.str "t1") = true →
        saveNew [("id", JValue.str "t1")] ctx0 s0 =
          (.error .alreadyExists, s0))
      ∧ (s0.existsId (.str "t1") = false →
          saveNew [("id", JValue.str "t1")] ctx0 s0 =
            (.ok [("id", JValue.str "t1")],
              s0.save (.str "t1") [("id", JValue.str "t1")] ctx0)
          ∧ (s0.save (.str "t1") [("id", JValue.str "t1")] ctx0).get
              (.str "t1") = some [("id", JValue.str "t1")])) :=
  ⟨by decide, by decide, by decide,
    saveNew_duplicate_prevention _ _ _ _ (by decide) (by decide) (by decide)⟩

/-- A context with any blank field fails validation. -/
theorem validateContext_blank (ctx : Context)
    (h : pyStrip ctx.user = "" ∨ pyStrip ctx.agent = ""
      ∨ pyStrip ctx.action = "" ∨ pyStrip ctx.intent = "") :
    validateContext ctx = .error .invalidContext := by
  unfold validateContext
  rcases h with h | h | h | h <;> simp [h]

/-- C8: every mutating operation called with a context having an empty or
whitespace-only field raises InvalidContext and returns the store — both
the document map and the operation log — unchanged. -/
theorem mutations_require_valid_context (ctx : Context)
    (h : pyStrip ctx.user = "" ∨ pyStrip ctx.agent = ""
      ∨ pyStrip ctx.action = "" ∨ pyStrip ctx.intent = "")
    (s : Store) (trade updates : Doc) (id : JValue) (ids : List JValue) :
    saveNew trade ctx s = (.error .invalidContext, s)
    ∧ saveUpdate trade ctx s = (.error .invalidContext, s)
    ∧ savePartialDoc id updates ctx s = (.error .invalidContext, s)
    ∧ deleteById id ctx s = (.error .invalidContext, s)
    ∧ deleteByIds ids ctx s = (.error .invalidContext, s) := by
  have hv := validateContext_blank ctx h
  exact ⟨by simp [saveNew, hv], by simp [saveUpdate, hv],
    by simp [savePartialDoc, hv], by simp [deleteById, hv],
    by simp [deleteByIds, hv]⟩

/-- C8 witness: a whitespace-only user field blocks all five mutations on a
concrete store. -/
theorem mutations_require_valid_context_witness :
    pyStrip blankCtx.user = ""
    ∧ (saveNew [("id", JValue.str "t9")] blankCtx s0 =
        (.error .invalidContext, s0)
      ∧ saveUpdate [("id", JValue.str "t1")] blankCtx s0 =
          (.error .invalidContext, s0)
      ∧ savePartialDoc (.str "t1") [("a", JValue.num 2)] blankCtx s0 =
          (.error .invalidContext, s0)
      ∧ deleteById (.str "t1") blankCtx s0 = (.error .invalidContext, s0)
      ∧ deleteByIds [.str "t1"] blankCtx s0 =
          (.error .invalidContext, s0)) :=
  ⟨by decide,
    mutations_require_valid_context blankCtx (Or.inl (by decide)) s0 _ _ _ _⟩

/-- C10: with a valid context, `save_new` and `save_update` raise a value
error whenever the document's id field is missing or falsy (empty string,
zero, false, empty list, empty map, null), leaving the store unchanged; a
successful call of either implies the id was truthy. -/
theorem save_falsy_id_value_error (trade : Doc) (ctx : Context) (s : Store)
    (hctx : validateContext ctx = .ok ()) :
    (jFalsy (docId trade) = true →
      saveNew trade ctx s = (.error .valueError, s)
      ∧ saveUpdate trade ctx s = (.error .valueError, s))
    ∧ (∀ r s', saveNew trade ctx s = (.ok r, s') →
        jFalsy (docId trade) = false)
    ∧ (∀ r s', saveUpdate trade ctx s = (.ok r, s') →
        jFalsy (docId trade) = false) := by
  refine ⟨fun hf => ⟨by simp [saveNew, hctx, hf],
    by simp [saveUpdate, hctx, hf]⟩, ?_, ?_⟩
  · intro r s' hok
    by_contra hb
    rw [Bool.not_eq_false] at hb
    simp [saveNew, hctx, hb] at hok
  · intro r s' hok
    by_contra hb
    rw [Bool.not_eq_false] at hb
    simp [saveUpdate, hctx, hb] at hok

/-- C10 witness: a document whose id field is the empty string is rejected
by both save operations. -/
theorem save_falsy_id_value_error_witness :
    validateContext ctx0 = .ok ()
    ∧ jFalsy (docId ([("id", JValue.str "")] : Doc)) = true
    ∧ (saveNew [("id", JValue.str "")] ctx0 s0 = (.error .valueError, s0)
      ∧ saveUpdate [("id", JValue.str "")] ctx0 s0 =
          (.error .valueError, s0)) :=
  ⟨by decide, by decide,
    (save_falsy_id_value_error [("id", JValue.str "")] ctx0 s0
      (by decide)).1 (by decide)⟩

/-- C2 counterexample: the claim fails as stated.  The filter contains a
regex condition whose operand "[" is an invalid pattern (the engine's
`compile` rejects it), yet evaluating it against the empty document returns
false instead of raising InvalidFilter, because the resolved field value is
null and the evaluator bails out before ever compiling the pattern. -/
theorem regex_invalid_silent_false_cex :
    applyFilter literalEngine [] [("a", .obj [("regex", .str "[")])] =
      .ok false
    ∧ literalEngine.compile "[" = none :=
  ⟨rfl, rfl⟩

/-- C2 amended: an invalid regex pattern raises InvalidFilter whenever the
regex condition is actually reached with a string field value (here: it is
the first condition of the filter and the document's value at the path is a
string); when the field value is null or non-string, or an earlier condition
already failed, the evaluator returns false without inspecting the
pattern. -/
theorem regex_invalid_raises_on_string_value (E : RegexEngine) (trade : Doc)
    (path pat : String) (restOps : List (String × JValue))
    (restFields : List (String × JValue)) (sv : String)
    (hpat : E.compile pat = none)
    (hval : getNested (.obj trade) (splitDot path) = .str sv) :
    applyFilter E trade
      ((path, .obj (("regex", .str pat) :: restOps)) :: restFields) =
      .error .invalidFilter := by
  have hop : applyOp E (getNested (.obj trade) (splitDot path)) "regex"
      (.str pat) = .error .invalidFilter := by
    rw [hval]
    simp [applyOp, hpat]
  have hops : applyOps E (getNested (.obj trade) (splitDot path))
      (("regex", .str pat) :: restOps) = .error .invalidFilter := by
    simp [applyOps, hop]
  simp [applyFilter, hops]

/-- C2 amended witness: with the field value a concrete string, the invalid
pattern "[" raises InvalidFilter. -/
theorem regex_invalid_raises_witness :
    literalEngine.compile "[" = none
    ∧ getNested (.obj [("a", JValue.str "x")]) (splitDot "a") = .str "x"
    ∧ applyFilter literalEngine [("a", JValue.str "x")]
        [("a", .obj [("regex", .str "[")])] = .error .invalidFilter :=
  ⟨rfl, rfl,
    regex_invalid_raises_on_string_value literalEngine
      [("a", JValue.str "x")] "a" "[" [] [] "x" rfl rfl⟩

/-- C9 counterexample: the claim fails as stated.  The filter's second field
carries the unknown operator "zz", but evaluating against the empty document
returns false: the first condition (`eq` on a missing field) fails and the
AND evaluation short-circuits before reaching the unknown operator. -/
theorem unknown_op_silent_false_cex :
    applyFilter literalEngine []
      [("a", .obj [("eq", .num 1)]), ("b", .obj [("zz", .num 2)])] =
      .ok false
    ∧ "zz" ∉ (["eq", "ne", "gt", "gte", "lt", "lte", "regex", "in", "nin"] :
        List String) :=
  ⟨rfl, by decide⟩

/-- C9 amended: a condition whose operator is none of eq, ne, gt, gte, lt,
lte, regex, in, nin raises InvalidFilter whenever it is reached — in
particular whenever it is the first condition of the filter — for every
document; if an earlier condition fails first, the evaluator instead
returns false. -/
theorem unknown_op_first_raises (E : RegexEngine) (trade : Doc)
    (path op : String) (operand : JValue)
    (restOps : List (String × JValue))
    (restFields : List (String × JValue))
    (h : op ∉ (["eq", "ne", "gt", "gte", "lt", "lte", "regex", "in", "nin"] :
      List String)) :
    applyFilter E trade
      ((path, .obj ((op, operand) :: restOps)) :: restFields) =
      .error .invalidFilter := by
  simp only [List.mem_cons, not_or] at h
  obtain ⟨h1, h2, h3, h4, h5, h6, h7, h8, h9, -⟩ := h
  have hop : applyOp E (getNested (.obj trade) (splitDot path)) op operand =
      .error .invalidFilter := by
    simp only [applyOp, if_neg h1, if_neg h2, if_neg h3, if_neg h4,
      if_neg h5, if_neg h6, if_neg h7, if_neg h8, if_neg h9]
  have hops : applyOps E (getNested (.obj trade) (splitDot path))
      ((op, operand) :: restOps) = .error .invalidFilter := by
    simp [applyOps, hop]
  simp [applyFilter, hops]

/-- C9 amended witness: the unknown operator "zz" in the first condition
raises InvalidFilter on a concrete document. -/
theorem unknown_op_first_raises_witness :
    "zz" ∉ (["eq", "ne", "gt", "gte", "lt", "lte", "regex", "in", "nin"] :
      List String)
    ∧ applyFilter literalEngine [("a", JValue.str "x")]
        [("b", .obj [("zz", .num 2)])] = .error .invalidFilter :=
  ⟨by decide,
    unknown_op_first_raises literalEngine [("a", JValue.str "x")] "b" "zz"
      (.num 2) [] [] (by decide)⟩

end TcsStore
